import Mathlib

/-!
Verification development for a WASI 0.2 cooperative I/O runtime:
a readiness multiplexer (`Poller`) backed by a slab of pollable handles,
a `Reactor` owning the multiplexer plus a key-to-waker map, scoped
registrations (`PollHandle`), and cooperative stream adapters
(`InputStream`, `OutputStream`) over non-blocking host stream primitives.

The Rust sources are embedded shallowly: the single-threaded shared
`Rc<RefCell<InnerReactor>>` state becomes explicit state passing, machine
integers become `Nat`, fallible/panicking operations return `Option`, and
host collaborators (WASI `poll`, stream `read`/`check-write`/`write`) are
modelled as pure state transformers that log the calls they receive.
-/

namespace S2P

/-- Host readiness handle (`wasi::io::poll::Pollable`): an opaque capability
with an identity, whose readiness predicate at call time we model as a
boolean field. -/
structure Pollable where
  id : Nat
  ready : Bool
deriving DecidableEq

/-! ### Slab (the `slab` crate, as used by `Poller.targets`)

`Slab<T>` keeps entries in a vector indexed by key; vacant slots form a
LIFO free list. `insert` pops the free list (or appends at the end),
`try_remove` vacates the slot and pushes its key, iteration visits
occupied slots in key order. -/

structure Slab where
  entries : List (Option Pollable)
  free : List Nat
deriving DecidableEq

def Slab.empty : Slab := ⟨[], []⟩

/-- `Slab::insert`: reuse the most recently vacated slot if any, else grow. -/
def Slab.insert (s : Slab) (v : Pollable) : Slab × Nat :=
  match s.free with
  | k :: rest => (⟨s.entries.set k (some v), rest⟩, k)
  | [] => (⟨s.entries ++ [some v], []⟩, s.entries.length)

/-- `Slab::get`: `none` for vacant or out-of-range keys. -/
def Slab.get (s : Slab) (k : Nat) : Option Pollable :=
  (s.entries[k]?).getD none

/-- `Slab::try_remove`: vacate the slot and return its value; `none` (and no
state change) if the key is absent. -/
def Slab.remove (s : Slab) (k : Nat) : Slab × Option Pollable :=
  match (s.entries[k]?).getD none with
  | some v => (⟨s.entries.set k none, k :: s.free⟩, some v)
  | none => (s, none)

/-- Slab iteration (`targets.iter().map(|(_, t)| t)`): the occupied slots'
values in key order, keys discarded. -/
def Slab.values (s : Slab) : List Pollable :=
  s.entries.filterMap id

/-! ### Multiplexer (`Poller` in `polling.rs`) -/

/-- Host `wasi:io/poll.poll(in: list<pollable>)`: blocks until at least one
of the given pollables is ready and returns the *indexes into the argument
list* of the ready ones. We model the readiness snapshot at the moment the
call returns. -/
def hostPoll (targets : List Pollable) : List Nat :=
  (targets.enum.filter (fun e => e.2.ready)).map Prod.fst

/-- `Poller`: a slab of registered pollables plus the ready list recorded by
the last `block_until`. Event keys are the slab keys (`EventKey(u32)`). -/
structure Poller where
  targets : Slab
  ready_list : List Nat
deriving DecidableEq

def Poller.new : Poller := ⟨Slab.empty, []⟩

/-- `Poller::insert`. -/
def Poller.insert (p : Poller) (t : Pollable) : Poller × Nat :=
  ({ p with targets := (p.targets.insert t).1 }, (p.targets.insert t).2)

/-- `Poller::get`. -/
def Poller.get (p : Poller) (k : Nat) : Option Pollable :=
  p.targets.get k

/-- `Poller::remove`. -/
def Poller.remove (p : Poller) (k : Nat) : Poller × Option Pollable :=
  ({ p with targets := (p.targets.remove k).1 }, (p.targets.remove k).2)

/-- `Poller::block_until`: collects the occupied slots' pollables into a
dense vector, calls the host `poll` on it, and stores the returned index
list — transmuted wholesale into event keys — as the new ready list. -/
def Poller.block_until (p : Poller) : Poller :=
  { p with ready_list := hostPoll p.targets.values }

/-- Reference predicate for the multiplexer's contract: the registration
keys of currently registered handles whose readiness predicate holds. -/
def Poller.readyRegisteredKeys (p : Poller) : List Nat :=
  (List.range p.targets.entries.length).filter
    (fun k => match p.targets.get k with
      | some t => t.ready
      | none => false)

/-- A multiplexer state with a gap in the key space, reached by three
inserts followed by removing the middle key: live keys {0, 2}, only the
handle at key 2 ready. -/
def gapPoller : Poller :=
  let (p, _) := Poller.new.insert ⟨10, false⟩
  let (p, _) := p.insert ⟨11, false⟩
  let (p, _) := p.insert ⟨12, true⟩
  (p.remove 1).1

/-- C1: the claim fails on the code. In the reachable state `gapPoller`
(live keys {0, 2}, only key 2's handle ready), `block_until` records ready
key 1 — the position of the ready handle in the dense collected vector —
although key 1 is not registered at all, while the registered ready handle
has key 2. The reported element is not the registration key of any
currently registered handle. -/
theorem poller_block_until_gap_misreports :
    (Poller.block_until gapPoller).ready_list = [1] ∧
      gapPoller.readyRegisteredKeys = [2] ∧
      gapPoller.get 1 = none ∧
      (gapPoller.get 2).map Pollable.ready = some true := by
  decide

/-! ### Slab slot lemmas -/

theorem slab_lt_length_of_get (s : Slab) (k : Nat) (v : Pollable)
    (h : s.get k = some v) : k < s.entries.length := by
  by_contra hk
  rw [Slab.get, List.getElem?_eq_none (by omega)] at h
  simp at h

theorem slab_remove_get_self (s : Slab) (k : Nat) : ((s.remove k).1).get k = none := by
  cases h : (s.entries[k]?).getD none with
  | none => simp [Slab.remove, Slab.get, h]
  | some v =>
    have hk : k < s.entries.length := slab_lt_length_of_get s k v h
    simp [Slab.remove, Slab.get, h, List.getElem?_set_self hk]

theorem slab_remove_get_ne (s : Slab) (k j : Nat) (hj : j ≠ k) :
    ((s.remove k).1).get j = s.get j := by
  cases h : (s.entries[k]?).getD none with
  | none => simp [Slab.remove, Slab.get, h]
  | some v => simp [Slab.remove, Slab.get, h, List.getElem?_set_ne (Ne.symm hj)]

theorem slab_remove_val (s : Slab) (k : Nat) : (s.remove k).2 = s.get k := by
  cases h : (s.entries[k]?).getD none with
  | none => simp [Slab.remove, Slab.get, h]
  | some v => simp [Slab.remove, Slab.get, h]

/-! ### Waker map (`HashMap<EventKey, Waker>` in `reactor.rs`)

A `Waker` is an opaque resume capability; `noop` is the placeholder from
`noop_waker()`, `fromContext id` the waker cloned out of a resume context.
The hash map is modelled as an association list with unique keys: insert
replaces any previous binding for the key. -/

inductive Waker
  | noop
  | fromContext (id : Nat)
deriving DecidableEq

def lookupW (m : List (Nat × Waker)) (k : Nat) : Option Waker :=
  (m.find? (fun kv => kv.1 == k)).map Prod.snd

def eraseW (m : List (Nat × Waker)) (k : Nat) : List (Nat × Waker) :=
  m.filter (fun kv => kv.1 != k)

def insertW (m : List (Nat × Waker)) (k : Nat) (w : Waker) : List (Nat × Waker) :=
  (k, w) :: eraseW m k

theorem lookupW_eraseW_self (m : List (Nat × Waker)) (k : Nat) :
    lookupW (eraseW m k) k = none := by
  induction m with
  | nil => rfl
  | cons a m ih =>
    simp only [eraseW, lookupW] at ih ⊢
    by_cases h : a.1 = k
    · rw [List.filter_cons_of_neg (by simp [h])]
      exact ih
    · rw [List.filter_cons_of_pos (by simp [h]), List.find?_cons_of_neg _ (by simp [h])]
      exact ih

theorem lookupW_eraseW_ne (m : List (Nat × Waker)) (k j : Nat) (h : j ≠ k) :
    lookupW (eraseW m k) j = lookupW m j := by
  induction m with
  | nil => rfl
  | cons a m ih =>
    simp only [eraseW, lookupW] at ih ⊢
    by_cases ha : a.1 = k
    · rw [List.filter_cons_of_neg (by simp [ha]),
        List.find?_cons_of_neg _ (by simp [ha]; exact Ne.symm h)]
      exact ih
    · rw [List.filter_cons_of_pos (by simp [ha])]
      by_cases haj : a.1 = j
      · rw [List.find?_cons_of_pos _ (by simp [haj]),
          List.find?_cons_of_pos _ (by simp [haj])]
      · rw [List.find?_cons_of_neg _ (by simp [haj]),
          List.find?_cons_of_neg _ (by simp [haj])]
        exact ih

theorem lookupW_insertW_self (m : List (Nat × Waker)) (k : Nat) (w : Waker) :
    lookupW (insertW m k w) k = some w := by
  simp only [insertW, lookupW]
  rw [List.find?_cons_of_pos _ (by simp)]
  rfl

theorem lookupW_insertW_ne (m : List (Nat × Waker)) (k j : Nat) (w : Waker) (h : j ≠ k) :
    lookupW (insertW m k w) j = lookupW m j := by
  simp only [insertW, lookupW]
  rw [List.find?_cons_of_neg _ (by simp; exact Ne.symm h)]
  exact lookupW_eraseW_ne m k j h

theorem keys_eraseW_nodup (m : List (Nat × Waker)) (k : Nat)
    (h : (m.map Prod.fst).Nodup) : ((eraseW m k).map Prod.fst).Nodup :=
  List.Nodup.sublist (List.Sublist.map Prod.fst (List.filter_sublist m)) h

theorem not_mem_keys_eraseW (m : List (Nat × Waker)) (k : Nat) :
    k ∉ (eraseW m k).map Prod.fst := by
  intro hmem
  rcases List.mem_map.1 hmem with ⟨kv, hkv, hfst⟩
  have := List.of_mem_filter hkv
  simp [hfst] at this

theorem keys_insertW_nodup (m : List (Nat × Waker)) (k : Nat) (w : Waker)
    (h : (m.map Prod.fst).Nodup) : ((insertW m k w).map Prod.fst).Nodup := by
  simp only [insertW, List.map_cons]
  exact List.Nodup.cons (not_mem_keys_eraseW m k) (keys_eraseW_nodup m k h)

/-! ### Reactor and scoped registration (`reactor.rs`)

`Rc<RefCell<InnerReactor>>` sharing becomes explicit state passing on the
inner state; the `.unwrap()` / `panic!` paths become `none`. -/

structure Reactor where
  poller : Poller
  wakers : List (Nat × Waker)
deriving DecidableEq

def Reactor.new : Reactor := ⟨Poller.new, []⟩

/-- `PollHandle::register`: schedule interest in the pollable and store a
no-op placeholder waker under the fresh key. Returns the key of the new
scoped registration. -/
def Reactor.register (r : Reactor) (t : Pollable) : Reactor × Nat :=
  (⟨(r.poller.insert t).1, insertW r.wakers (r.poller.insert t).2 Waker.noop⟩,
    (r.poller.insert t).2)

/-- Poll outcome (`core::task::Poll`). -/
inductive Poll (α : Type)
  | Ready (val : α)
  | Pending
deriving DecidableEq

/-- `PollHandle::poll`: overwrite the stored waker for this key with the
context's waker, then query the pollable's readiness; `none` models the
`.unwrap()` panic when the key is not registered. -/
def PollHandle.poll (r : Reactor) (k : Nat) (w : Waker) : Option (Reactor × Poll Unit) :=
  let r' : Reactor := ⟨r.poller, insertW r.wakers k w⟩
  match r'.poller.get k with
  | some t => some (r', if t.ready then Poll.Ready () else Poll.Pending)
  | none => none

/-- `impl Drop for PollHandle`: remove the pollable from the poller (taking
back the stored handle) and remove the waker entry. -/
def Reactor.dropHandle (r : Reactor) (k : Nat) : Reactor × Option Pollable :=
  (⟨(r.poller.remove k).1, eraseW r.wakers k⟩, (r.poller.remove k).2)

/-- The wake loop of `Reactor::block_until`: look up and invoke the waker
of each ready key in order; `none` models the `panic!` on a missing
waker. Returns the invoked wakers. -/
def wakeAll (m : List (Nat × Waker)) : List Nat → Option (List Waker)
  | [] => some []
  | k :: ks =>
    match lookupW m k with
    | some w => (wakeAll m ks).map (fun ws => w :: ws)
    | none => none

/-- `Reactor::block_until`: delegate to the poller, then wake every ready
key's stored waker (or panic). -/
def Reactor.block_until (r : Reactor) : Option (Reactor × List Waker) :=
  let p := r.poller.block_until
  (wakeAll r.wakers p.ready_list).map (fun ws => (⟨p, r.wakers⟩, ws))

theorem wakeAll_eq_none_iff (m : List (Nat × Waker)) (ks : List Nat) :
    wakeAll m ks = none ↔ ∃ k ∈ ks, lookupW m k = none := by
  induction ks with
  | nil => simp [wakeAll]
  | cons k ks ih =>
    cases h : lookupW m k with
    | none =>
      constructor
      · intro _
        exact ⟨k, List.mem_cons_self k ks, h⟩
      · intro _
        simp [wakeAll, h]
    | some w =>
      simp only [wakeAll, h, Option.map_eq_none']
      rw [ih]
      constructor
      · rintro ⟨j, hj, hlj⟩
        exact ⟨j, List.mem_cons_of_mem _ hj, hlj⟩
      · rintro ⟨j, hj, hlj⟩
        rcases List.mem_cons.1 hj with rfl | hj
        · rw [h] at hlj; cases hlj
        · exact ⟨j, hj, hlj⟩

theorem wakeAll_mem (m : List (Nat × Waker)) (ks : List Nat) (ws : List Waker)
    (h : wakeAll m ks = some ws) (k : Nat) (hk : k ∈ ks) (w : Waker)
    (hw : lookupW m k = some w) : w ∈ ws := by
  induction ks generalizing ws with
  | nil => cases hk
  | cons a as ih =>
    cases ha : lookupW m a with
    | none => simp [wakeAll, ha] at h
    | some wa =>
      simp only [wakeAll, ha, Option.map_eq_some'] at h
      rcases h with ⟨ws', hws', rfl⟩
      rcases List.mem_cons.1 hk with rfl | hk
      · rw [ha] at hw
        cases hw
        exact List.mem_cons_self _ _
      · exact List.mem_cons_of_mem _ (ih ws' hws' hk)

/-- C4: in the reactor's wait-and-wake pass, when every key in the ready
subset returned by the multiplexer has a stored waker, the pass succeeds
and invokes each such stored waker; when some ready key has no stored
waker, the pass panics (models Rust `panic!`, result `none`) rather than
silently ignoring the key. -/
theorem reactor_block_until_wakes_or_panics (r : Reactor) :
    ((∀ k ∈ r.poller.block_until.ready_list, (lookupW r.wakers k).isSome) →
      ∃ ws, r.block_until = some (⟨r.poller.block_until, r.wakers⟩, ws) ∧
        ∀ k ∈ r.poller.block_until.ready_list, ∀ w,
          lookupW r.wakers k = some w → w ∈ ws) ∧
    ((∃ k ∈ r.poller.block_until.ready_list, lookupW r.wakers k = none) →
      r.block_until = none) := by
  constructor
  · intro hall
    have hnone : ¬ wakeAll r.wakers r.poller.block_until.ready_list = none := by
      rw [wakeAll_eq_none_iff]
      rintro ⟨k, hk, hlk⟩
      have := hall k hk
      rw [hlk] at this
      simp at this
    cases hws : wakeAll r.wakers r.poller.block_until.ready_list with
    | none => exact absurd hws hnone
    | some ws =>
      refine ⟨ws, ?_, ?_⟩
      · simp [Reactor.block_until, hws]
      · intro k hk w hw
        exact wakeAll_mem _ _ _ hws k hk w hw
  · intro hmiss
    have : wakeAll r.wakers r.poller.block_until.ready_list = none :=
      (wakeAll_eq_none_iff _ _).2 hmiss
    simp [Reactor.block_until, this]

/-- Reactor with one registered, ready pollable at key 0 whose waker is
stored. -/
def readyReactor : Reactor :=
  ⟨⟨⟨[some ⟨1, true⟩], []⟩, []⟩, [(0, Waker.fromContext 5)]⟩

/-- Reactor with one registered, ready pollable at key 0 but no stored
waker for it. -/
def orphanReactor : Reactor :=
  ⟨⟨⟨[some ⟨1, true⟩], []⟩, []⟩, []⟩

/-- Witness for C4 at two concrete reactors: the all-wakers-present case
wakes, the missing-waker case panics. -/
theorem reactor_block_until_wakes_or_panics_w :
    (∃ ws, readyReactor.block_until =
        some (⟨readyReactor.poller.block_until, readyReactor.wakers⟩, ws) ∧
      ∀ k ∈ readyReactor.poller.block_until.ready_list, ∀ w,
        lookupW readyReactor.wakers k = some w → w ∈ ws) ∧
    orphanReactor.block_until = none :=
  ⟨(reactor_block_until_wakes_or_panics readyReactor).1 (by decide),
   (reactor_block_until_wakes_or_panics orphanReactor).2 ⟨0, by decide, by decide⟩⟩

/-- C7: releasing a scoped registration (`impl Drop for PollHandle`)
removes both the poller's handle entry and the waker entry for its key,
hands the previously stored pollable back rather than destroying reactor
state silently, and leaves every other key's entries untouched (in
particular it closes or disposes of no other resource). -/
theorem dropHandle_removes_both_returns_handle (r : Reactor) (k : Nat) :
    (r.dropHandle k).1.poller.get k = none ∧
    lookupW (r.dropHandle k).1.wakers k = none ∧
    (r.dropHandle k).2 = r.poller.get k ∧
    (∀ j, j ≠ k →
      (r.dropHandle k).1.poller.get j = r.poller.get j ∧
      lookupW (r.dropHandle k).1.wakers j = lookupW r.wakers j) := by
  refine ⟨?_, ?_, ?_, ?_⟩
  · simpa [Reactor.dropHandle, Poller.remove, Poller.get] using
      slab_remove_get_self r.poller.targets k
  · simpa [Reactor.dropHandle] using lookupW_eraseW_self r.wakers k
  · simpa [Reactor.dropHandle, Poller.remove, Poller.get] using
      slab_remove_val r.poller.targets k
  · intro j hj
    constructor
    · simpa [Reactor.dropHandle, Poller.remove, Poller.get] using
        slab_remove_get_ne r.poller.targets k j hj
    · simpa [Reactor.dropHandle] using lookupW_eraseW_ne r.wakers k j hj

/-- Witness for C7 at a concrete reactor holding two registrations,
releasing key 0. -/
theorem dropHandle_removes_both_returns_handle_w :
    (readyReactor.dropHandle 0).1.poller.get 0 = none ∧
    lookupW (readyReactor.dropHandle 0).1.wakers 0 = none ∧
    (readyReactor.dropHandle 0).2 = readyReactor.poller.get 0 ∧
    ((readyReactor.dropHandle 0).1.poller.get 1 = readyReactor.poller.get 1 ∧
      lookupW (readyReactor.dropHandle 0).1.wakers 1 = lookupW readyReactor.wakers 1) :=
  ⟨(dropHandle_removes_both_returns_handle readyReactor 0).1,
   (dropHandle_removes_both_returns_handle readyReactor 0).2.1,
   (dropHandle_removes_both_returns_handle readyReactor 0).2.2.1,
   (dropHandle_removes_both_returns_handle readyReactor 0).2.2.2 1 (by decide)⟩

/-! ### Slab free-list well-formedness (holds for every reachable slab) -/

/-- Free slots are in range, vacant, and listed at most once. -/
def SlabWF (s : Slab) : Prop :=
  (∀ k ∈ s.free, k < s.entries.length ∧ (s.entries[k]?).getD none = none) ∧
    s.free.Nodup

theorem slab_empty_WF : SlabWF Slab.empty :=
  ⟨by simp [Slab.empty], List.nodup_nil⟩

theorem slab_insert_get_self (s : Slab) (v : Pollable) (h : SlabWF s) :
    (s.insert v).1.get (s.insert v).2 = some v := by
  cases hf : s.free with
  | nil => simp [Slab.insert, hf, Slab.get, List.getElem?_concat_length]
  | cons k rest =>
    have hk : k < s.entries.length := (h.1 k (by rw [hf]; exact List.mem_cons_self k rest)).1
    simp [Slab.insert, hf, Slab.get, List.getElem?_set_self hk]

theorem slab_insert_get_ne (s : Slab) (v : Pollable) (j : Nat) (h : SlabWF s)
    (hj : j ≠ (s.insert v).2) : (s.insert v).1.get j = s.get j := by
  cases hf : s.free with
  | nil =>
    have hj' : j ≠ s.entries.length := by simpa [Slab.insert, hf] using hj
    by_cases hlt : j < s.entries.length
    · simp [Slab.insert, hf, Slab.get, List.getElem?_append, hlt]
    · have h1 : s.entries[j]? = none := List.getElem?_eq_none (by omega)
      have h2 : (s.entries ++ [some v])[j]? = none :=
        List.getElem?_eq_none (by simp; omega)
      simp [Slab.insert, hf, Slab.get, h1, h2]
  | cons k rest =>
    have hj' : j ≠ k := by simpa [Slab.insert, hf] using hj
    simp [Slab.insert, hf, Slab.get, List.getElem?_set_ne (Ne.symm hj')]

theorem slab_insert_fresh (s : Slab) (v : Pollable) (h : SlabWF s) :
    s.get (s.insert v).2 = none := by
  cases hf : s.free with
  | nil =>
    simp [Slab.insert, hf, Slab.get, List.getElem?_eq_none (Nat.le_refl _)]
  | cons k rest =>
    have := (h.1 k (by rw [hf]; exact List.mem_cons_self k rest)).2
    simpa [Slab.insert, hf, Slab.get] using this

theorem slab_insert_WF (s : Slab) (v : Pollable) (h : SlabWF s) :
    SlabWF (s.insert v).1 := by
  cases hf : s.free with
  | nil => exact ⟨by simp [Slab.insert, hf], by simp [Slab.insert, hf]⟩
  | cons k rest =>
    have hnd : (k :: rest).Nodup := by rw [← hf]; exact h.2
    refine ⟨?_, ?_⟩
    · intro j hj
      have hjr : j ∈ s.free := by rw [hf]; exact List.mem_cons_of_mem k (by simpa [Slab.insert, hf] using hj)
      have hjk : j ≠ k := by
        intro he
        exact (List.nodup_cons.1 hnd).1 (he ▸ by simpa [Slab.insert, hf] using hj)
      refine ⟨by simpa [Slab.insert, hf] using (h.1 j hjr).1, ?_⟩
      simp [Slab.insert, hf, List.getElem?_set_ne (Ne.symm hjk)]
      exact (h.1 j hjr).2
    · simpa [Slab.insert, hf] using (List.nodup_cons.1 hnd).2

theorem slab_remove_WF (s : Slab) (k : Nat) (h : SlabWF s) :
    SlabWF (s.remove k).1 := by
  cases hg : (s.entries[k]?).getD none with
  | none => simpa [Slab.remove, hg] using h
  | some v =>
    have hk : k < s.entries.length := slab_lt_length_of_get s k v hg
    have hkfree : k ∉ s.free := by
      intro hmem
      have := (h.1 k hmem).2
      rw [hg] at this
      cases this
    refine ⟨?_, ?_⟩
    · intro j hj
      rcases List.mem_cons.1 (by simpa [Slab.remove, hg] using hj) with rfl | hjf
      · exact ⟨by simpa [Slab.remove, hg] using hk,
          by simp [Slab.remove, hg, List.getElem?_set_self hk]⟩
      · have hjk : j ≠ k := fun he => hkfree (he ▸ hjf)
        refine ⟨by simpa [Slab.remove, hg] using (h.1 j hjf).1, ?_⟩
        simp [Slab.remove, hg, List.getElem?_set_ne (Ne.symm hjk)]
        exact (h.1 j hjf).2
    · simp only [Slab.remove, hg]
      exact List.nodup_cons.2 ⟨hkfree, h.2⟩

/-! ### Reachable reactor states

Every way client code drives one reactor is a sequence of scoped
registration acquires (`Reactor::register`), polls (`PollHandle::poll`),
and releases (`Drop for PollHandle`). -/

inductive Op
  | acquire (t : Pollable)
  | pollOp (key : Nat) (w : Waker)
  | release (key : Nat)
deriving DecidableEq

def Reactor.step (r : Reactor) : Op → Option Reactor
  | .acquire t => some (r.register t).1
  | .pollOp k w =>
    match PollHandle.poll r k w with
    | some p => some p.1
    | none => none
  | .release k => some (r.dropHandle k).1

def Reactor.runFrom (r : Reactor) : List Op → Option Reactor
  | [] => some r
  | op :: ops =>
    match r.step op with
    | some r' => r'.runFrom ops
    | none => none

def Reactor.run (ops : List Op) : Option Reactor :=
  Reactor.new.runFrom ops

/-- Reactor bookkeeping invariant: well-formed slab, waker-map keys exactly
the registered keys, and no duplicate waker-map keys. -/
def ReactorInv (r : Reactor) : Prop :=
  SlabWF r.poller.targets ∧
  (∀ k, (lookupW r.wakers k).isSome ↔ (r.poller.get k).isSome) ∧
  (r.wakers.map Prod.fst).Nodup

theorem reactor_new_inv : ReactorInv Reactor.new := by
  refine ⟨slab_empty_WF, ?_, List.nodup_nil⟩
  intro k
  simp [lookupW, Reactor.new, Poller.new, Poller.get, Slab.get, Slab.empty]

theorem reactor_step_inv (r : Reactor) (op : Op) (r' : Reactor)
    (h : ReactorInv r) (hs : r.step op = some r') : ReactorInv r' := by
  cases op with
  | acquire t =>
    have hr' : r' = ⟨(r.poller.insert t).1,
        insertW r.wakers (r.poller.insert t).2 Waker.noop⟩ := by
      simpa [Reactor.step, Reactor.register] using hs.symm
    subst hr'
    refine ⟨?_, ?_, keys_insertW_nodup _ _ _ h.2.2⟩
    · simpa [Poller.insert] using slab_insert_WF r.poller.targets t h.1
    · intro k
      by_cases hk : k = (r.poller.insert t).2
      · subst hk
        rw [lookupW_insertW_self]
        have := slab_insert_get_self r.poller.targets t h.1
        simp only [Poller.insert, Poller.get]
        simp [this]
      · rw [lookupW_insertW_ne _ _ _ _ hk]
        have := slab_insert_get_ne r.poller.targets t k h.1
          (by simpa [Poller.insert] using hk)
        simp only [Poller.insert, Poller.get] at this ⊢
        rw [this]
        exact h.2.1 k
  | pollOp k w =>
    cases hg : r.poller.get k with
    | none =>
      have hp : PollHandle.poll r k w = none := by
        rw [PollHandle.poll]
        simp [hg]
      simp only [Reactor.step, hp] at hs
      cases hs
    | some t =>
      have hp : PollHandle.poll r k w = some (⟨r.poller, insertW r.wakers k w⟩,
          if t.ready then Poll.Ready () else Poll.Pending) := by
        rw [PollHandle.poll]
        simp [hg]
      simp only [Reactor.step, hp] at hs
      have hr' : r' = ⟨r.poller, insertW r.wakers k w⟩ := (Option.some.inj hs).symm
      subst hr'
      refine ⟨h.1, ?_, keys_insertW_nodup _ _ _ h.2.2⟩
      intro j
      by_cases hj : j = k
      · subst hj
        rw [lookupW_insertW_self]
        simp [hg]
      · rw [lookupW_insertW_ne _ _ _ _ hj]
        exact h.2.1 j
  | release k =>
    have hr' : r' = ⟨(r.poller.remove k).1, eraseW r.wakers k⟩ := by
      simpa [Reactor.step, Reactor.dropHandle] using hs.symm
    subst hr'
    refine ⟨?_, ?_, keys_eraseW_nodup _ _ h.2.2⟩
    · simpa [Poller.remove] using slab_remove_WF r.poller.targets k h.1
    · intro j
      by_cases hj : j = k
      · subst hj
        rw [lookupW_eraseW_self]
        have := slab_remove_get_self r.poller.targets j
        simp only [Poller.remove, Poller.get]
        simp [this]
      · rw [lookupW_eraseW_ne _ _ _ hj]
        have := slab_remove_get_ne r.poller.targets k j hj
        simp only [Poller.remove, Poller.get] at this ⊢
        rw [this]
        exact h.2.1 j

theorem reactor_runFrom_inv (ops : List Op) (r r' : Reactor)
    (h : ReactorInv r) (hs : r.runFrom ops = some r') : ReactorInv r' := by
  induction ops generalizing r with
  | nil =>
    rw [Reactor.runFrom] at hs
    cases hs
    exact h
  | cons op ops ih =>
    rw [Reactor.runFrom] at hs
    cases hstep : r.step op with
    | none => rw [hstep] at hs; cases hs
    | some r1 =>
      rw [hstep] at hs
      exact ih r1 (reactor_step_inv r op r1 h hstep) hs

theorem reactor_run_inv (ops : List Op) (r : Reactor)
    (h : Reactor.run ops = some r) : ReactorInv r :=
  reactor_runFrom_inv ops Reactor.new r reactor_new_inv h

/-- C6: at most one waker is stored per registration key (the waker map of
any reactor reached by acquire/poll/release operations has no duplicate
keys); acquiring a registration stores the no-op placeholder waker under
its fresh key; and each poll call overwrites the stored waker for its key
with the context's waker (last-poll-wins) and returns Ready iff the
handle's readiness query is set. -/
theorem at_most_one_waker_last_poll_wins :
    (∀ ops r, Reactor.run ops = some r → (r.wakers.map Prod.fst).Nodup) ∧
    (∀ r t, lookupW (Reactor.register r t).1.wakers (Reactor.register r t).2 =
      some Waker.noop) ∧
    (∀ r k w t, Poller.get r.poller k = some t →
      PollHandle.poll r k w = some (⟨r.poller, insertW r.wakers k w⟩,
        if t.ready then Poll.Ready () else Poll.Pending) ∧
      lookupW (insertW r.wakers k w) k = some w) := by
  refine ⟨?_, ?_, ?_⟩
  · intro ops r h
    exact (reactor_run_inv ops r h).2.2
  · intro r t
    simp [Reactor.register, lookupW_insertW_self]
  · intro r k w t ht
    refine ⟨?_, lookupW_insertW_self r.wakers k w⟩
    rw [PollHandle.poll]
    simp [ht]

/-- Concrete op sequence: acquire two handles, release the first, poll the
second with a context waker. -/
def exOps : List Op :=
  [Op.acquire ⟨1, true⟩, Op.acquire ⟨2, false⟩, Op.release 0,
    Op.pollOp 1 (Waker.fromContext 7)]

/-- The reactor state reached by `exOps`. -/
def exReactor : Reactor :=
  ⟨⟨⟨[none, some ⟨2, false⟩], [0]⟩, []⟩, [(1, Waker.fromContext 7)]⟩

/-- Witness for C6 at concrete inputs: the reachable state `exReactor` has
no duplicate waker keys; registering on a fresh reactor stores the
placeholder; polling `readyReactor`'s key 0 overwrites the waker and
reports Ready. -/
theorem at_most_one_waker_last_poll_wins_w :
    (exReactor.wakers.map Prod.fst).Nodup ∧
    lookupW (Reactor.register Reactor.new ⟨4, false⟩).1.wakers
      (Reactor.register Reactor.new ⟨4, false⟩).2 = some Waker.noop ∧
    (PollHandle.poll readyReactor 0 (Waker.fromContext 9) =
        some (⟨readyReactor.poller,
          insertW readyReactor.wakers 0 (Waker.fromContext 9)⟩, Poll.Ready ()) ∧
      lookupW (insertW readyReactor.wakers 0 (Waker.fromContext 9)) 0 =
        some (Waker.fromContext 9)) :=
  ⟨at_most_one_waker_last_poll_wins.1 exOps exReactor (by decide),
   at_most_one_waker_last_poll_wins.2.1 Reactor.new ⟨4, false⟩,
   by
     simpa using
       at_most_one_waker_last_poll_wins.2.2 readyReactor 0
         (Waker.fromContext 9) ⟨1, true⟩ (by decide)⟩

/-- C9: after any sequence of acquire, poll, and release operations on a
single reactor (that does not panic), a key has a stored waker iff it is
registered in the multiplexer; consequently every registered key — in
particular a ready key drawn from the registered key set — has a stored
waker. -/
theorem run_waker_keys_match_registered (ops : List Op) (r : Reactor)
    (h : Reactor.run ops = some r) :
    (∀ k, (lookupW r.wakers k).isSome ↔ (Poller.get r.poller k).isSome) ∧
    (∀ k t, Poller.get r.poller k = some t → (lookupW r.wakers k).isSome) := by
  have hinv := reactor_run_inv ops r h
  refine ⟨hinv.2.1, ?_⟩
  intro k t ht
  exact (hinv.2.1 k).2 (by simp [ht])

/-- Witness for C9 at the concrete op sequence `exOps`: in the reached
state, key 1 is registered and has a waker stored; the iff holds at key 1. -/
theorem run_waker_keys_match_registered_w :
    ((lookupW exReactor.wakers 1).isSome ↔ (Poller.get exReactor.poller 1).isSome) ∧
    (lookupW exReactor.wakers 1).isSome :=
  ⟨(run_waker_keys_match_registered exOps exReactor (by decide)).1 1,
   (run_waker_keys_match_registered exOps exReactor (by decide)).2 1 ⟨2, false⟩
     (by decide)⟩

/-! ### Host stream primitives (`wasi::io::streams`)

The host collaborators are modelled as pure state transformers that log
the calls issued to them, so "exactly one host call" claims are provable
from the logs. -/

inductive StreamError
  | Closed
  | LastOperationFailed (msg : String)
deriving DecidableEq

inductive IoError
  | brokenPipe (msg : String)
deriving DecidableEq

instance {ε α : Type} [DecidableEq ε] [DecidableEq α] :
    DecidableEq (Except ε α) := fun x y =>
  match x, y with
  | Except.ok a, Except.ok b =>
    if h : a = b then Decidable.isTrue (by rw [h])
    else Decidable.isFalse (by intro he; cases he; exact h rfl)
  | Except.ok _, Except.error _ => Decidable.isFalse (by intro he; cases he)
  | Except.error _, Except.ok _ => Decidable.isFalse (by intro he; cases he)
  | Except.error e, Except.error f =>
    if h : e = f then Decidable.isTrue (by rw [h])
    else Decidable.isFalse (by intro he; cases he; exact h rfl)

/-- Host input stream: the bytes it still has available, whether it is
closed once those bytes are drained, an optional sticky failure, and a log
of the bounded read calls issued (each entry the requested length). -/
structure HostInput where
  data : List Nat
  closed : Bool
  failMsg : Option String
  readLog : List Nat
deriving DecidableEq

/-- Host `InputStream::read(len)`: non-blocking bounded read. Fails with
the sticky error if set; reports `Closed` when closed with no data left;
otherwise returns up to `len` of the currently available bytes. -/
def HostInput.read (h : HostInput) (len : Nat) :
    Except StreamError (List Nat) × HostInput :=
  let h' := { h with readLog := h.readLog ++ [len] }
  match h.failMsg with
  | some m => (Except.error (StreamError.LastOperationFailed m), h')
  | none =>
    if h.closed = true ∧ h.data = [] then (Except.error StreamError.Closed, h')
    else (Except.ok (h.data.take len), { h' with data := h.data.drop len })

/-! ### Input adapter (`InputStream` in `streams.rs`)

The adapter owns the host stream and the FIFO read-ahead buffer (the
unconsumed bytes of its `BytesMut`). Each operation first polls the scoped
registration; that Ready/Pending status enters as the `ready` argument.
`poll_read` returns the bytes written into the caller's buffer (the Rust
`usize` result is their length). -/

structure InputStream where
  inner : HostInput
  buf : List Nat
deriving DecidableEq

def DEFAULT_BUF_LEN : Nat := 32

/-- `AsyncRead::poll_read` for the input adapter: Pending when the scoped
registration is pending; else serve from the read-ahead buffer when it is
non-empty (capping at the caller's length), otherwise issue one bounded
host read sized to the caller's length, mapping `Closed` to a successful
empty read and failures to broken-pipe errors. -/
def InputStream.poll_read (s : InputStream) (ready : Bool) (n : Nat) :
    Poll (Except IoError (List Nat)) × InputStream :=
  if ready then
    if s.buf.length = 0 then
      match s.inner.read n with
      | (Except.ok bytes, h') =>
        (Poll.Ready (Except.ok bytes), { s with inner := h' })
      | (Except.error StreamError.Closed, h') =>
        (Poll.Ready (Except.ok []), { s with inner := h' })
      | (Except.error (StreamError.LastOperationFailed m), h') =>
        (Poll.Ready (Except.error (IoError.brokenPipe m)), { s with inner := h' })
    else
      let len := min n s.buf.length
      (Poll.Ready (Except.ok (s.buf.take len)), { s with buf := s.buf.drop len })
  else (Poll.Pending, s)

/-- `AsyncBufRead::poll_fill_buf`: one bounded host read of the fixed
default chunk length appended to the buffer tail; on `Closed` the
unconsumed buffer is returned as-is. Returns the view of all unconsumed
buffered bytes. -/
def InputStream.poll_fill_buf (s : InputStream) (ready : Bool) :
    Poll (Except IoError (List Nat)) × InputStream :=
  if ready then
    match s.inner.read DEFAULT_BUF_LEN with
    | (Except.ok bytes, h') =>
      (Poll.Ready (Except.ok (s.buf ++ bytes)), ⟨h', s.buf ++ bytes⟩)
    | (Except.error StreamError.Closed, h') =>
      (Poll.Ready (Except.ok s.buf), { s with inner := h' })
    | (Except.error (StreamError.LastOperationFailed m), h') =>
      (Poll.Ready (Except.error (IoError.brokenPipe m)), { s with inner := h' })
  else (Poll.Pending, s)

/-- `AsyncBufRead::consume(amt)`, i.e. `BytesMut::advance`: advances the
head cursor; panics (`none`) when `amt` exceeds the unconsumed length. -/
def InputStream.consume (s : InputStream) (amt : Nat) : Option InputStream :=
  if amt ≤ s.buf.length then some { s with buf := s.buf.drop amt } else none

/-! ### Output adapter (`OutputStream` in `streams.rs`) -/

/-- Host output stream: the currently writable byte budget, closed flag,
sticky failure, the bytes accepted so far, and logs of the write calls
(payloads) and `check-write` budget queries issued. -/
structure HostOutput where
  budget : Nat
  closed : Bool
  failMsg : Option String
  accepted : List Nat
  writeLog : List (List Nat)
  checkLog : Nat
deriving DecidableEq

/-- Host `OutputStream::check-write`: non-blocking writable-budget query. -/
def HostOutput.check_write (h : HostOutput) : Except StreamError Nat × HostOutput :=
  let h' := { h with checkLog := h.checkLog + 1 }
  if h.closed = true then (Except.error StreamError.Closed, h')
  else
    match h.failMsg with
    | some m => (Except.error (StreamError.LastOperationFailed m), h')
    | none => (Except.ok h.budget, h')

/-- Host `OutputStream::write`: non-blocking bounded write (the caller must
not exceed the budget); accepts the bytes and debits the budget. -/
def HostOutput.write (h : HostOutput) (bytes : List Nat) :
    Except StreamError Unit × HostOutput :=
  let h' := { h with writeLog := h.writeLog ++ [bytes] }
  if h.closed = true then (Except.error StreamError.Closed, h')
  else
    match h.failMsg with
    | some m => (Except.error (StreamError.LastOperationFailed m), h')
    | none =>
      (Except.ok (),
        { h' with accepted := h'.accepted ++ bytes,
                  budget := h'.budget - bytes.length })

structure OutputStream where
  inner : HostOutput
deriving DecidableEq

/-- `AsyncWrite::poll_write`: Pending when the registration is pending;
else query the writable budget, cap the requested length to
`min(requested, budget)`, issue exactly one bounded write, and report the
number of bytes accepted; closed/failed outcomes map to broken-pipe
errors. -/
def OutputStream.poll_write (s : OutputStream) (ready : Bool) (buf : List Nat) :
    Poll (Except IoError Nat) × OutputStream :=
  if ready then
    match s.inner.check_write with
    | (Except.error StreamError.Closed, h') =>
      (Poll.Ready (Except.error (IoError.brokenPipe "stream closed")), ⟨h'⟩)
    | (Except.error (StreamError.LastOperationFailed m), h') =>
      (Poll.Ready (Except.error (IoError.brokenPipe m)), ⟨h'⟩)
    | (Except.ok n0, h') =>
      let n := min buf.length n0
      match h'.write (buf.take n) with
      | (Except.ok _, h2) => (Poll.Ready (Except.ok n), ⟨h2⟩)
      | (Except.error StreamError.Closed, h2) =>
        (Poll.Ready (Except.error (IoError.brokenPipe "stream closed")), ⟨h2⟩)
      | (Except.error (StreamError.LastOperationFailed m), h2) =>
        (Poll.Ready (Except.error (IoError.brokenPipe m)), ⟨h2⟩)
  else (Poll.Pending, s)

/-! ### Stream claims -/

/-- Input adapter state with 1 buffered byte and 1 more byte available
from the host. -/
def cexInput : InputStream := ⟨⟨[8], false, none, []⟩, [7]⟩

/-- C2 counterexample: with M = 1 buffered byte and K = 1 host byte
available, a direct read requesting N = 2 returns only the single buffered
byte — 1 byte, not min(N, M+K) = 2 as the claim states. -/
theorem poll_read_buffered_not_min_sum :
    (cexInput.poll_read true 2).1 = Poll.Ready (Except.ok [7]) ∧
    cexInput.buf.length = 1 ∧
    cexInput.inner.data.length = 1 ∧
    (1 : Nat) ≠ min 2 (cexInput.buf.length + cexInput.inner.data.length) := by
  decide

/-- C2 (amended): a direct read while Ready with M > 0 buffered bytes
returns success with exactly min(N, M) bytes, the first buffered bytes in
FIFO order, issuing no host call (the host state is untouched); with an
empty buffer it issues exactly one bounded non-blocking host read sized to
N and returns success with min(N, K) bytes when the host has K available
(including K = 0 and the closed case), never an error. -/
theorem poll_read_drains_buffer_first (s : InputStream) (n : Nat)
    (hf : s.inner.failMsg = none) :
    (s.buf ≠ [] →
      s.poll_read true n =
        (Poll.Ready (Except.ok (s.buf.take (min n s.buf.length))),
          { s with buf := s.buf.drop (min n s.buf.length) })) ∧
    (s.buf = [] →
      (s.poll_read true n).1 = Poll.Ready (Except.ok (s.inner.data.take n)) ∧
      (s.poll_read true n).2.inner.readLog = s.inner.readLog ++ [n] ∧
      (s.inner.data.take n).length = min n s.inner.data.length) := by
  constructor
  · intro hb
    have hlen : ¬ s.buf.length = 0 := by simpa [List.length_eq_zero] using hb
    simp [InputStream.poll_read, hlen]
  · intro hb
    by_cases hcd : s.inner.closed = true ∧ s.inner.data = []
    · refine ⟨?_, ?_, ?_⟩ <;>
        simp [InputStream.poll_read, hb, HostInput.read, hf, hcd, hcd.2]
    · refine ⟨?_, ?_, ?_⟩ <;>
        simp [InputStream.poll_read, hb, HostInput.read, hf, hcd]

/-- Input adapter with buffered bytes [1, 2, 3] and host bytes [9, 10]. -/
def bufInput : InputStream := ⟨⟨[9, 10], false, none, []⟩, [1, 2, 3]⟩

/-- Input adapter with an empty buffer and host bytes [9, 10]. -/
def emptyBufInput : InputStream := ⟨⟨[9, 10], false, none, []⟩, []⟩

/-- Witness for the amended C2 at concrete inputs: a buffered read serves
min(2, 3) = 2 buffered bytes without touching the host; an empty-buffer
read issues one host read sized 5 and returns both available bytes. -/
theorem poll_read_drains_buffer_first_w :
    bufInput.poll_read true 2 =
      (Poll.Ready (Except.ok [1, 2]), { bufInput with buf := [3] }) ∧
    (emptyBufInput.poll_read true 5).1 = Poll.Ready (Except.ok [9, 10]) ∧
    (emptyBufInput.poll_read true 5).2.inner.readLog = [5] :=
  ⟨by simpa using (poll_read_drains_buffer_first bufInput 2 rfl).1 (by decide),
   by simpa using ((poll_read_drains_buffer_first emptyBufInput 5 rfl).2 rfl).1,
   by simpa using ((poll_read_drains_buffer_first emptyBufInput 5 rfl).2 rfl).2.1⟩

/-- C3: writing a buffer of N bytes while Ready when the host-writable
budget is B < N succeeds with exactly B bytes accepted (short write); the
operation issues exactly one budget query and exactly one bounded write,
whose payload is the first min(N, B) = B bytes. -/
theorem poll_write_short_write (s : OutputStream) (buf : List Nat)
    (hc : s.inner.closed = false) (hf : s.inner.failMsg = none)
    (hb : s.inner.budget < buf.length) :
    (s.poll_write true buf).1 = Poll.Ready (Except.ok s.inner.budget) ∧
    (s.poll_write true buf).2.inner.writeLog =
      s.inner.writeLog ++ [buf.take s.inner.budget] ∧
    (buf.take s.inner.budget).length = min buf.length s.inner.budget ∧
    (s.poll_write true buf).2.inner.checkLog = s.inner.checkLog + 1 := by
  have hmin : min buf.length s.inner.budget = s.inner.budget :=
    Nat.min_eq_right (Nat.le_of_lt hb)
  refine ⟨?_, ?_, ?_, ?_⟩ <;>
    simp [OutputStream.poll_write, HostOutput.check_write, HostOutput.write,
      hc, hf, hmin, List.length_take, Nat.le_of_lt hb, Nat.min_comm]

/-- Output adapter with writable budget 2 and quiescent logs. -/
def shortWriteOut : OutputStream := ⟨⟨2, false, none, [], [], 0⟩⟩

/-- Witness for C3 at a concrete output stream: writing 3 bytes against
budget 2 accepts exactly the first 2 bytes in one write call after one
budget query. -/
theorem poll_write_short_write_w :
    (shortWriteOut.poll_write true [5, 6, 7]).1 = Poll.Ready (Except.ok 2) ∧
    (shortWriteOut.poll_write true [5, 6, 7]).2.inner.writeLog = [[5, 6]] ∧
    (shortWriteOut.poll_write true [5, 6, 7]).2.inner.checkLog = 1 :=
  ⟨(poll_write_short_write shortWriteOut [5, 6, 7] rfl rfl (by decide)).1,
   by simpa using
     (poll_write_short_write shortWriteOut [5, 6, 7] rfl rfl (by decide)).2.1,
   by simpa using
     (poll_write_short_write shortWriteOut [5, 6, 7] rfl rfl (by decide)).2.2.2⟩

/-- C5: when the host reports the input stream closed, a direct read with
an empty read-ahead buffer returns a successful 0-byte result (never an
error), and a buffered fill returns the currently unconsumed buffered
bytes as-is rather than failing. -/
theorem closed_read_success (s : InputStream) (n : Nat)
    (hc : s.inner.closed = true) (hd : s.inner.data = [])
    (hf : s.inner.failMsg = none) :
    (s.buf = [] → (s.poll_read true n).1 = Poll.Ready (Except.ok [])) ∧
    (s.poll_fill_buf true).1 = Poll.Ready (Except.ok s.buf) := by
  constructor
  · intro hb
    simp [InputStream.poll_read, hb, HostInput.read, hf, hc, hd]
  · simp [InputStream.poll_fill_buf, HostInput.read, hf, hc, hd]

/-- Closed host input stream behind an adapter with unconsumed bytes. -/
def closedInput : InputStream := ⟨⟨[], true, none, []⟩, [4, 5]⟩

/-- Closed host input stream behind an adapter with an empty buffer. -/
def closedEmptyInput : InputStream := ⟨⟨[], true, none, []⟩, []⟩

/-- Witness for C5 at concrete closed streams: the direct read yields a
successful empty read; the buffered fill returns the unconsumed bytes. -/
theorem closed_read_success_w :
    (closedEmptyInput.poll_read true 3).1 = Poll.Ready (Except.ok []) ∧
    (closedInput.poll_fill_buf true).1 = Poll.Ready (Except.ok [4, 5]) :=
  ⟨(closed_read_success closedEmptyInput 3 rfl rfl rfl).1 rfl,
   by simpa using (closed_read_success closedInput 3 rfl rfl rfl).2⟩

/-- C10: `consume(n)` panics (`none`) precisely when `n` exceeds the
number of currently unconsumed buffered bytes; within bounds it advances
the head cursor by `n`. -/
theorem consume_panics_iff_exceeds_buffer (s : InputStream) (n : Nat) :
    (s.consume n = none ↔ s.buf.length < n) ∧
    (n ≤ s.buf.length → s.consume n = some { s with buf := s.buf.drop n }) := by
  constructor
  · constructor
    · intro h
      by_contra hn
      simp [InputStream.consume, Nat.le_of_not_lt hn] at h
    · intro h
      simp [InputStream.consume, Nat.not_le.2 h]
  · intro hn
    simp [InputStream.consume, hn]

/-- Input adapter with two unconsumed buffered bytes. -/
def consumeInput : InputStream := ⟨⟨[], false, none, []⟩, [1, 2]⟩

/-- Witness for C10 at a concrete adapter: consuming 3 of 2 buffered bytes
panics, consuming 1 advances the cursor. -/
theorem consume_panics_iff_exceeds_buffer_w :
    (consumeInput.consume 3 = none ↔ consumeInput.buf.length < 3) ∧
    consumeInput.consume 1 = some { consumeInput with buf := [2] } :=
  ⟨(consume_panics_iff_exceeds_buffer consumeInput 3).1,
   by simpa using (consume_panics_iff_exceeds_buffer consumeInput 1).2 (by decide)⟩

/-! ### Adapter teardown order (C8)

Rust drop glue runs `Drop::drop` first and only afterwards drops the
struct's remaining fields. For both adapters the drop body is
`self.poll_handle.take().unwrap()`, which moves the `PollHandle` out of
the `Option` field and drops it immediately, releasing the scoped
registration; the host stream handle (`inner`) is a field, dropped only
after the body returns. The traces below record that fixed order. -/

inductive TeardownEvent
  | releaseRegistration
  | releaseHostStream
  | releaseBuffer
deriving DecidableEq

/-- Teardown trace of `impl Drop for InputStream`: drop body releases the
scoped registration, then the fields (`inner` host stream, `buf`) drop. -/
def InputStream.dropTrace : List TeardownEvent :=
  [TeardownEvent.releaseRegistration, TeardownEvent.releaseHostStream,
    TeardownEvent.releaseBuffer]

/-- Teardown trace of `impl Drop for OutputStream`: drop body releases the
scoped registration, then the `inner` host stream field drops. -/
def OutputStream.dropTrace : List TeardownEvent :=
  [TeardownEvent.releaseRegistration, TeardownEvent.releaseHostStream]

/-- C8: on destruction of either stream adapter, every release of the
underlying host stream handle in the teardown trace is strictly preceded
by the release of the scoped registration. -/
theorem drop_releases_registration_before_host_stream :
    (∀ i : Fin InputStream.dropTrace.length,
      InputStream.dropTrace.get i = TeardownEvent.releaseHostStream →
      ∃ j : Fin InputStream.dropTrace.length, j.1 < i.1 ∧
        InputStream.dropTrace.get j = TeardownEvent.releaseRegistration) ∧
    (∀ i : Fin OutputStream.dropTrace.length,
      OutputStream.dropTrace.get i = TeardownEvent.releaseHostStream →
      ∃ j : Fin OutputStream.dropTrace.length, j.1 < i.1 ∧
        OutputStream.dropTrace.get j = TeardownEvent.releaseRegistration) := by
  decide

/-- Witness for C8 at the concrete traces: the host stream release at
position 1 of each trace is preceded by the registration release. -/
theorem drop_releases_registration_before_host_stream_w :
    (∃ j : Fin InputStream.dropTrace.length, j.1 < 1 ∧
      InputStream.dropTrace.get j = TeardownEvent.releaseRegistration) ∧
    (∃ j : Fin OutputStream.dropTrace.length, j.1 < 1 ∧
      OutputStream.dropTrace.get j = TeardownEvent.releaseRegistration) :=
  ⟨drop_releases_registration_before_host_stream.1 ⟨1, by decide⟩ (by decide),
   drop_releases_registration_before_host_stream.2 ⟨1, by decide⟩ (by decide)⟩

end S2P
